import Mathlib

/-!
Verification development for the aeo-engine citation-detection core.

The definitions below are a shallow embedding, into Lean, of
`src/lib/citation/detector.ts` (citation detector) and of the probe prompt
builder module (`buildProbePrompt`, `generateValidationProbes`).

Modelling conventions:
* JavaScript strings are modelled as `List Char`; `String` wrappers convert
  via `String.data`.  `toLowerCase` is modelled per-character by
  `Char.toLower` (faithful on ASCII, which is all the fixed keyword /
  template data uses).
* JavaScript regular expressions that appear in the source are specialised
  by hand to executable character-level matchers with the same semantics
  (left-to-right, leftmost match, greedy with backtracking where relevant).
  The character classes `\s`, `\b`-word characters and the line terminators
  recognised by multiline `^` are modelled by their ASCII parts.
* `String.prototype.replace` with a string replacement is modelled including
  the JavaScript `$`-pattern expansion of (`$$`, `$&`, the backquote and quote
  forms); the regexes used by the prompt builder have no capture groups, so
  `$n` stays literal, as in JavaScript.
* Scanners that skip a matched span ahead use an explicit fuel argument
  (initialised with the string length, which bounds the number of steps
  because every step consumes at least one character); all definitions are
  executable and kernel-reducible.
-/

namespace AeoEngine

/-- Lowercase a character list, modelling `String.prototype.toLowerCase`
per character (ASCII-faithful). -/
def lowerL (l : List Char) : List Char := l.map Char.toLower

/-- JavaScript word characters `[A-Za-z0-9_]`, the class underlying `\b`. -/
def isWordChar (c : Char) : Bool :=
  (('a' ≤ c && c ≤ 'z') || ('A' ≤ c && c ≤ 'Z') || ('0' ≤ c && c ≤ '9') || c = '_')

/-- ASCII part of the JavaScript `\s` character class. -/
def isJsSpace (c : Char) : Bool :=
  (c = ' ' || c = '\t' || c = '\n' || c = '\r' || c = '\x0b' || c = '\x0c')

/-- Line terminators after which a multiline `^` matches in JavaScript
(ASCII part: LF and CR). -/
def isLineTerm (c : Char) : Bool := (c = '\n' || c = '\r')

/-- Decimal digit test, the `\d` class. -/
def isDigitChar (c : Char) : Bool := ('0' ≤ c && c ≤ '9')

/-- First index at which `p` occurs as a contiguous sublist of the second
argument; models `String.prototype.indexOf` (also its result `0` on an
empty pattern). -/
def findSub (p : List Char) : List Char → Option Nat
  | [] => if p.isPrefixOf ([] : List Char) then some 0 else none
  | c :: t => if p.isPrefixOf (c :: t) then some 0 else (findSub p t).map (· + 1)

/-- Substring test, modelling `String.prototype.includes`. -/
def containsSub (s p : List Char) : Bool := (findSub p s).isSome

/-- Case-insensitive prefix match (the `i` regex flag on a literal). -/
def matchCI : List Char → List Char → Bool
  | [], _ => true
  | _ :: _, [] => false
  | p :: ps, c :: cs => (p.toLower = c.toLower) && matchCI ps cs

/-- Word-character test lifted to an optional character; out-of-string
positions count as non-word, as for JavaScript `\b`. -/
def isWordOpt : Option Char → Bool
  | none => false
  | some c => isWordChar c

/-- A `\b` word boundary between two (optional) adjacent characters. -/
def isBoundary (a b : Option Char) : Bool := isWordOpt a != isWordOpt b

/-- Whether the regex `\b<name>\b` (with `name` regex-escaped, `i` flag)
matches at the current position, where `prev` is the character preceding
the position and `s` the remainder of the string. -/
def wbMatchHere (name : List Char) (prev : Option Char) (s : List Char) : Bool :=
  matchCI name s &&
  isBoundary prev s.head? &&
  isBoundary (if name.isEmpty then prev else (s.take name.length).getLast?)
    ((s.drop name.length).head?)

/-- Index of the first `\b<name>\b` match in the suffix `s`, with `prev` the
character just before `s`; models the first match of `RegExp.prototype.exec`. -/
def wbFindAux (name : List Char) (prev : Option Char) : List Char → Option Nat
  | [] => if wbMatchHere name prev [] then some 0 else none
  | c :: t =>
    if wbMatchHere name prev (c :: t) then some 0
    else (wbFindAux name (some c) t).map (· + 1)

/-- Index of the first case-insensitive word-boundary match of `name` in
`s`, modelling `new RegExp("\\b" + escapeRegex(brandName) + "\\b", "i")`
applied with `exec`. -/
def wbFind (name s : List Char) : Option Nat := wbFindAux name none s

-- --- Sentiment keywords (verbatim from the source) ---

/-- Positive sentiment keywords from the detector source. -/
def POSITIVE_KEYWORDS : List String :=
  ["best", "recommend", "top", "excellent", "outstanding", "leading",
   "superior", "great", "fantastic", "highly rated", "first choice",
   "preferred", "trusted", "reliable", "impressive"]

/-- Negative sentiment keywords from the detector source. -/
def NEGATIVE_KEYWORDS : List String :=
  ["avoid", "issues", "problems", "worst", "poor", "lacking", "inferior",
   "disappointing", "unreliable", "overpriced", "outdated", "difficult",
   "frustrating", "limited", "mediocre"]

/-- The window `text.slice(max(0, i - win), min(len, i + l + win))`
lowercased, modelling `extractSurroundingText`. -/
def extractSurroundingText (t : List Char) (i l win : Nat) : List Char :=
  lowerL ((t.take (min t.length (i + l + win))).drop (i - win))

/-- The keyword-counting loop of `detectSentiment`: one increment per
keyword whose text occurs in the window (`includes`). -/
def countKeywords (ks : List String) (w : List Char) : Nat :=
  ks.foldl (fun acc k => if containsSub w k.data then acc + 1 else acc) 0

/-- Sentiment verdicts. -/
inductive Sentiment where
  | positive
  | neutral
  | negative
deriving DecidableEq

/-- The function `detectSentiment` of the detector: keyword scores over the ±120-character
lowercased window, with ties yielding `neutral`. -/
def detectSentiment (t : List Char) (i l : Nat) : Sentiment :=
  let surrounding := extractSurroundingText t i l 120
  let positiveScore := countKeywords POSITIVE_KEYWORDS surrounding
  let negativeScore := countKeywords NEGATIVE_KEYWORDS surrounding
  if positiveScore > negativeScore then Sentiment.positive
  else if negativeScore > positiveScore then Sentiment.negative
  else Sentiment.neutral

-- --- Position detection (`detectPosition`) ---

/-- The marker punctuation class `[.):\-]` of the numbered-list regex. -/
def isMarkerPunct (c : Char) : Bool := (c = '.' || c = ')' || c = ':' || c = '-')

/-- Numeric value of a digit character. -/
def digitVal (c : Char) : Nat := c.toNat - 48

/-- Characters matched by `.` in a JavaScript regex (ASCII part): everything
except the line terminators. -/
def isDotChar (c : Char) : Bool := !isLineTerm c

/-- Backtracking search used when `\s+(.+)` hits the end of the string: the
greedy whitespace run gives characters back one at a time, so the content
group starts at the latest whitespace character that `.` can match.  Input
is the whitespace run minus its first (mandatorily consumed) character;
returns the content group and the remainder after it. -/
def btSearch : List Char → Option (List Char × List Char)
  | [] => none
  | c :: t =>
    match btSearch t with
    | some r => some r
    | none =>
      if isDotChar c then
        let content := (c :: t).takeWhile isDotChar
        some (content, (c :: t).drop content.length)
      else none

/-- The `\s+(.+)` part of the numbered-list regex, after the marker
punctuation, with `marker` the already-parsed list index. -/
def tryNumberedTail (marker : Nat) (rest : List Char) : Option (Nat × List Char × List Char) :=
  let ws := rest.takeWhile isJsSpace
  let tail := rest.dropWhile isJsSpace
  if ws.isEmpty then none
  else
    let content := tail.takeWhile isDotChar
    if content.isEmpty then
      match btSearch ws.tail with
      | some (c, r) => some (marker, c, r)
      | none => none
    else some (marker, content, tail.drop content.length)

/-- The `(\d{1,2})[.):\-]\s+(.+)` part of the numbered-list regex,
applied after the leading-whitespace skip.  On success returns the parsed
marker, the content captured by `(.+)`, and the rest of the string after
the match. -/
def tryMarker (afterInd : List Char) : Option (Nat × List Char × List Char) :=
  match afterInd with
  | d1 :: rest1 =>
    if isDigitChar d1 then
      match rest1 with
      | d2 :: rest2 =>
        if isDigitChar d2 then
          match rest2 with
          | p :: rest3 =>
            if isMarkerPunct p then
              tryNumberedTail (10 * digitVal d1 + digitVal d2) rest3
            else none
          | [] => none
        else if isMarkerPunct d2 then tryNumberedTail (digitVal d1) rest2
        else none
      | [] => none
    else none
  | [] => none

/-- Attempt the numbered-list regex `^[ \t]*(\d{1,2})[.):\-]\s+(.+)` at a
line-start position: skip the `[ \t]*` indentation, then the marker part. -/
def tryNumbered (s : List Char) : Option (Nat × List Char × List Char) :=
  tryMarker (s.dropWhile (fun c => c = ' ' || c = '\t'))

/-- Whether `brandPattern` (the case-insensitive alternation of the escaped
brand name and domain) matches the captured content: since both alternatives
are literal, this is case-insensitive substring containment. -/
def brandPatternTest (content name domain : List Char) : Bool :=
  containsSub (lowerL content) (lowerL name) || containsSub (lowerL content) (lowerL domain)

/-- The `exec` loop of `detectPosition`: scan the suffix `s` (with `ls`
recording whether the current position is a line start) for numbered-list
matches, returning the marker of the first match whose content the brand
pattern accepts. -/
def dpScanF (name domain : List Char) : Nat → List Char → Bool → Option Nat
  | 0, _, _ => none
  | _ + 1, [], _ => none
  | fuel + 1, c :: t, ls =>
    if ls then
      match tryNumbered (c :: t) with
      | some (marker, content, rest) =>
        if brandPatternTest content name domain then some marker
        else dpScanF name domain fuel rest false
      | none => dpScanF name domain fuel t (isLineTerm c)
    else dpScanF name domain fuel t (isLineTerm c)

/-- The function `detectPosition` of the detector (with the brand pattern expanded to its
name and domain components). -/
def detectPosition (response name domain : List Char) : Option Nat :=
  dpScanF name domain response.length response true

/-- Specification-side companion of `dpScanF` for the amended C5 statement:
the full ordered list of `(marker, content)` pairs the `exec` loop visits. -/
def numberedMatchesF : Nat → List Char → Bool → List (Nat × List Char)
  | 0, _, _ => []
  | _ + 1, [], _ => []
  | fuel + 1, c :: t, ls =>
    if ls then
      match tryNumbered (c :: t) with
      | some (marker, content, rest) =>
        (marker, content) :: numberedMatchesF fuel rest false
      | none => numberedMatchesF fuel t (isLineTerm c)
    else numberedMatchesF fuel t (isLineTerm c)

/-- All numbered-list matches of a response, in scan order. -/
def numberedMatches (response : List Char) : List (Nat × List Char) :=
  numberedMatchesF response.length response true

-- --- Competitor detection ---

/-- A configured competitor. -/
structure Competitor where
  name : String
  domain : String
deriving DecidableEq

/-- The function `detectCompetitors` of the detector: push each competitor whose name or
domain occurs (case-insensitively) in the response. -/
def detectCompetitors (response : List Char) (competitors : List Competitor) : List String :=
  let lowerResponse := lowerL response
  competitors.foldl
    (fun acc c =>
      if containsSub lowerResponse (lowerL c.name.data) ||
         containsSub lowerResponse (lowerL c.domain.data) then acc ++ [c.name]
      else acc)
    []

-- --- URL extraction (layer 2 in the comments of the source) ---

/-- Characters allowed in the URL body class `[^\s)<>]`. -/
def isUrlBody (c : Char) : Bool := !isJsSpace c && c ≠ ')' && c ≠ '<' && c ≠ '>'

/-- Attempt the URL regex `https?:\/\/[^\s)<>]+` (with the `i` flag) at the
current position; on success returns the matched URL and the rest. -/
def tryUrl (s : List Char) : Option (List Char × List Char) :=
  if matchCI "http".data s then
    if matchCI "s://".data (s.drop 4) then
      let body := (s.drop 8).takeWhile isUrlBody
      if body.isEmpty then none
      else some (s.take 8 ++ body, (s.drop 8).drop body.length)
    else if matchCI "://".data (s.drop 4) then
      let body := (s.drop 7).takeWhile isUrlBody
      if body.isEmpty then none
      else some (s.take 7 ++ body, (s.drop 7).drop body.length)
    else none
  else none

/-- Fuelled global scan for URL matches, modelling
`response.match(/https?:\/\/[^\s)<>]+/gi) ?? []`. -/
def extractUrlsF : Nat → List Char → List (List Char)
  | 0, _ => []
  | _ + 1, [] => []
  | fuel + 1, c :: t =>
    match tryUrl (c :: t) with
    | some (url, rest) => url :: extractUrlsF fuel rest
    | none => extractUrlsF fuel t

/-- All URL tokens of a response, in order. -/
def extractUrls (response : List Char) : List (List Char) :=
  extractUrlsF response.length response

-- --- Main detection ---

/-- Citation type classification. -/
inductive CitationType where
  | directMention
  | urlLink
  | recommendation
  | comparison
deriving DecidableEq

/-- The `CitationAnalysis` result record of the detector. -/
structure CitationAnalysis where
  cited : Bool
  citationType : Option CitationType
  sentiment : Option Sentiment
  position : Option Nat
  competitorsMentioned : List String
  confidence : ℚ
deriving DecidableEq

/-- Citation-type classification of the exact-name layer: scan the
±200-character lowercased window around the match for the comparison and
recommendation keyword sets, in the order used by the source. -/
def classifyExactType (response : List Char) (idx len : Nat) : CitationType :=
  let surrounding := extractSurroundingText response idx len 200
  if containsSub surrounding "compare".data || containsSub surrounding "vs".data ||
     containsSub surrounding "versus".data || containsSub surrounding "compared to".data then
    CitationType.comparison
  else if containsSub surrounding "recommend".data || containsSub surrounding "suggest".data ||
          containsSub surrounding "try".data then
    CitationType.recommendation
  else CitationType.directMention

/-- The function `detectCitation` of the detector: the short-circuiting layer pipeline
(URL, exact word-boundary name, partial name, bare domain, no match),
assembled branch by branch exactly as in the source. -/
def detectCitation (response brandName brandDomain : String)
    (competitors : List Competitor) : CitationAnalysis :=
  let resp := response.data
  let lowerResponse := lowerL resp
  let lowerBrandName := lowerL brandName.data
  let lowerBrandDomain := lowerL brandDomain.data
  let urls := extractUrls resp
  if urls.any (fun u => containsSub (lowerL u) lowerBrandDomain) then
    { cited := true
      citationType := some CitationType.urlLink
      confidence := 1
      sentiment :=
        match findSub lowerBrandDomain lowerResponse with
        | some urlIndex => some (detectSentiment resp urlIndex brandDomain.data.length)
        | none => none
      position := detectPosition resp brandName.data brandDomain.data
      competitorsMentioned := detectCompetitors resp competitors }
  else
    match wbFind brandName.data resp with
    | some idx =>
      { cited := true
        confidence := 9 / 10
        citationType := some (classifyExactType resp idx brandName.data.length)
        sentiment := some (detectSentiment resp idx brandName.data.length)
        position := detectPosition resp brandName.data brandDomain.data
        competitorsMentioned := detectCompetitors resp competitors }
    | none =>
      match findSub lowerBrandName lowerResponse with
      | some partialIdx =>
        { cited := true
          citationType := some CitationType.directMention
          confidence := 7 / 10
          sentiment := some (detectSentiment resp partialIdx brandName.data.length)
          position := detectPosition resp brandName.data brandDomain.data
          competitorsMentioned := detectCompetitors resp competitors }
      | none =>
        match findSub lowerBrandDomain lowerResponse with
        | some domainIdx =>
          { cited := true
            citationType := some CitationType.directMention
            confidence := 1 / 2
            sentiment := some (detectSentiment resp domainIdx brandDomain.data.length)
            position := detectPosition resp brandName.data brandDomain.data
            competitorsMentioned := detectCompetitors resp competitors }
        | none =>
          { cited := false
            citationType := none
            sentiment := none
            position := none
            competitorsMentioned := detectCompetitors resp competitors
            confidence := 0 }

-- --- Probe prompt builder ---

/-- The probe category enumeration (6 standard + 10 validation values). -/
inductive ProbeCategory where
  | bestOf
  | topList
  | comparison
  | howTo
  | recommendation
  | alternative
  | difference
  | companySolve
  | bestSolution
  | useCase
  | whenToUse
  | prosCons
  | beginner
  | enterprise
  | budget
  | specificNeed
deriving DecidableEq

/-- The combined `ALL_TEMPLATES` record (standard plus validation
templates), verbatim from the source.  In TypeScript the record is total
over the category union, so the `if (!template)` fallback in
`buildProbePrompt` is unreachable and the lookup is modelled as a total
function. -/
def ALL_TEMPLATES : ProbeCategory → String
  | ProbeCategory.bestOf =>
    "What are the best {query}? Please provide a detailed list with recommendations."
  | ProbeCategory.topList =>
    "What are the top 10 {query}? Rank them from best to worst with brief explanations."
  | ProbeCategory.comparison =>
    "Compare the leading {query}. What are the pros and cons of each?"
  | ProbeCategory.howTo =>
    "How do I choose the right {query}? What factors should I consider and what do you recommend?"
  | ProbeCategory.recommendation =>
    "I need a recommendation for {query}. What would you suggest and why?"
  | ProbeCategory.alternative =>
    "What are the best alternatives for {query}? Compare them in detail."
  | ProbeCategory.difference =>
    "What\x27s the difference between {option1} and {option2}? When should I use each?"
  | ProbeCategory.companySolve =>
    "How do companies solve {problem}? What tools and approaches are most common?"
  | ProbeCategory.bestSolution =>
    "What\x27s the best solution for {problem}? Please provide specific recommendations."
  | ProbeCategory.useCase =>
    "What {category} do {audience} use and why? What makes it the preferred choice?"
  | ProbeCategory.whenToUse =>
    "When should I use {option1} vs {option2}? Give me specific scenarios for each."
  | ProbeCategory.prosCons =>
    "What are the pros and cons of {subject}? Give me an honest assessment."
  | ProbeCategory.beginner =>
    "What {category} is best for beginners? I\x27m just getting started and need something easy to learn."
  | ProbeCategory.enterprise =>
    "What {category} do enterprise companies use? I need something that scales and has enterprise features."
  | ProbeCategory.budget =>
    "What\x27s the best {category} on a budget? I need good value without breaking the bank."
  | ProbeCategory.specificNeed =>
    "What {category} is best for {requirement}? This specific feature is critical for my use case."

/-- The `ProbeTemplateVariables` interface: eight optional named fields. -/
structure ProbeTemplateVariables where
  query : Option String
  option1 : Option String
  option2 : Option String
  problem : Option String
  category : Option String
  audience : Option String
  subject : Option String
  requirement : Option String
deriving DecidableEq

/-- JavaScript `$`-pattern expansion of a string replacement argument:
`$$` is a literal dollar, `$&` the matched text, dollar-backquote the
portion before the match, dollar-quote the portion after it; everything
else (including `$1` and `$<`, since the regexes of the builder have no capture
groups) stays literal. -/
def expandDollar : List Char → List Char → List Char → List Char → List Char
  | [], _, _, _ => []
  | [c], _, _, _ => [c]
  | c :: d :: r2, m, b, a =>
    if c = '$' then
      if d = '$' then '$' :: expandDollar r2 m b a
      else if d = '&' then m ++ expandDollar r2 m b a
      else if d = Char.ofNat 96 then b ++ expandDollar r2 m b a
      else if d = Char.ofNat 39 then a ++ expandDollar r2 m b a
      else c :: expandDollar (d :: r2) m b a
    else c :: expandDollar (d :: r2) m b a

/-- Global literal-pattern replacement
(`result.replace(new RegExp(pat, "g"), repl)` for a regex-escaped literal
`pat`): leftmost non-overlapping scan, each match expanded with the
`$`-patterns.  `pre` is the reversed already-scanned prefix (needed by the
dollar-backquote form); fuel bounds the scan. -/
def replAllF (pat repl : List Char) : Nat → List Char → List Char → List Char
  | 0, _, s => s
  | _ + 1, _, [] => []
  | fuel + 1, pre, c :: t =>
    if pat.isPrefixOf (c :: t) then
      expandDollar repl pat pre.reverse ((c :: t).drop pat.length) ++
        replAllF pat repl fuel (pat.reverse ++ pre) ((c :: t).drop pat.length)
    else c :: replAllF pat repl fuel (c :: pre) t

/-- Global replacement of the literal `pat` by `repl` in `s`. -/
def replAll (s pat repl : List Char) : List Char := replAllF pat repl s.length [] s

/-- Single (first-occurrence) literal replacement, modelling
`template.replace("{query}", query)` in the simple path of the builder. -/
def replaceFirstAux (pat repl pre : List Char) : List Char → List Char
  | [] => []
  | c :: t =>
    if pat.isPrefixOf (c :: t) then
      expandDollar repl pat pre.reverse ((c :: t).drop pat.length) ++ (c :: t).drop pat.length
    else c :: replaceFirstAux pat repl (c :: pre) t

/-- The final pass of the builder, `result.replace(/\{[^}]+\}/g, query)`: every
complete placeholder token is replaced by (the `$`-expansion of) the
query. -/
def rtF (q : List Char) : Nat → List Char → List Char → List Char
  | 0, _, s => s
  | _ + 1, _, [] => []
  | fuel + 1, pre, c :: t =>
    if c = '\x7b' then
      let nm := t.takeWhile (fun x => x ≠ '\x7d')
      match t.drop nm.length with
      | brk :: r3 =>
        if nm.isEmpty then c :: rtF q fuel (c :: pre) t
        else
          expandDollar q (c :: (nm ++ [brk])) pre.reverse r3 ++
            rtF q fuel ((c :: (nm ++ [brk])).reverse ++ pre) r3
      | [] => c :: rtF q fuel (c :: pre) t
    else c :: rtF q fuel (c :: pre) t

/-- Replace every `\{[^}]+\}` token of `s` by the query `q`. -/
def replaceTokens (s q : List Char) : List Char := rtF q s.length [] s

/-- Whether the variables object has no own keys
(`Object.keys(variables).length === 0`). -/
def varsIsEmpty (v : ProbeTemplateVariables) : Bool :=
  v.query.isNone && v.option1.isNone && v.option2.isNone && v.problem.isNone &&
  v.category.isNone && v.audience.isNone && v.subject.isNone && v.requirement.isNone

/-- Entry list contributed by one optional field of the variables object. -/
def optEntry (k : String) : Option String → List (String × String)
  | none => []
  | some s => [(k, s)]

/-- The entries of `{ query, ...variables }` in the declaration
order (the `query` key first, possibly overridden by a spread `query`
value), as iterated by `Object.entries`. -/
def varEntries (q : String) (v : ProbeTemplateVariables) : List (String × String) :=
  ("query", v.query.getD q) ::
    (optEntry "option1" v.option1 ++ optEntry "option2" v.option2 ++
     optEntry "problem" v.problem ++ optEntry "category" v.category ++
     optEntry "audience" v.audience ++ optEntry "subject" v.subject ++
     optEntry "requirement" v.requirement)

/-- The named placeholder pattern for key `k`:
the literal braces around the key name. -/
def mkVarPat (k : String) : List Char := '\x7b' :: k.data ++ ['\x7d']

/-- The function `buildProbePrompt` of the builder: simple single-`{query}` substitution
when no (or an empty) variables object is supplied; otherwise the full
variable-replacement loop followed by the catch-all token pass. -/
def buildProbePrompt (query : String) (cat : ProbeCategory)
    (varsObj : Option ProbeTemplateVariables) : String :=
  let template := ALL_TEMPLATES cat
  match varsObj with
  | none => ⟨replaceFirstAux (mkVarPat "query") query.data [] template.data⟩
  | some v =>
    if varsIsEmpty v then ⟨replaceFirstAux (mkVarPat "query") query.data [] template.data⟩
    else
      let afterLoop := (varEntries query v).foldl
        (fun res kv => if kv.2 ≠ "" then replAll res (mkVarPat kv.1) kv.2.data else res)
        template.data
      ⟨replaceTokens afterLoop query.data⟩

/-- One generated probe. -/
structure Probe where
  category : ProbeCategory
  prompt : String
  vars : ProbeTemplateVariables
deriving DecidableEq

/-- The fixed audience list of `generateValidationProbes`. -/
def audiences : List String :=
  ["startups", "small businesses", "enterprise companies", "freelancers"]

/-- The function `generateValidationProbes` of the builder: the fixed probe catalogue in
the push order of the source (standard probes, per-competitor comparison pairs
capped at three competitors, problem-solving probe, audience probes,
beginner/budget/enterprise probes, and the pros-and-cons probe on the
brand). -/
def generateValidationProbes (brandName category : String)
    (competitors : List String) : List Probe :=
  [⟨ProbeCategory.bestOf, buildProbePrompt category ProbeCategory.bestOf none,
      ⟨some category, none, none, none, none, none, none, none⟩⟩,
   ⟨ProbeCategory.topList, buildProbePrompt category ProbeCategory.topList none,
      ⟨some category, none, none, none, none, none, none, none⟩⟩] ++
  (competitors.take 3).flatMap (fun competitor =>
    [⟨ProbeCategory.difference,
        buildProbePrompt category ProbeCategory.difference
          (some ⟨none, some brandName, some competitor, none, none, none, none, none⟩),
        ⟨none, some brandName, some competitor, none, some category, none, none, none⟩⟩,
     ⟨ProbeCategory.whenToUse,
        buildProbePrompt category ProbeCategory.whenToUse
          (some ⟨none, some brandName, some competitor, none, none, none, none, none⟩),
        ⟨none, some brandName, some competitor, none, some category, none, none, none⟩⟩]) ++
  [⟨ProbeCategory.companySolve,
      buildProbePrompt category ProbeCategory.companySolve
        (some ⟨none, none, none, some ("choosing the right " ++ category), none, none, none, none⟩),
      ⟨none, none, none, some ("choosing the right " ++ category), none, none, none, none⟩⟩] ++
  audiences.map (fun audience =>
    ⟨ProbeCategory.useCase,
      buildProbePrompt category ProbeCategory.useCase
        (some ⟨none, none, none, none, some category, some audience, none, none⟩),
      ⟨none, none, none, none, some category, some audience, none, none⟩⟩) ++
  [⟨ProbeCategory.beginner,
      buildProbePrompt category ProbeCategory.beginner
        (some ⟨none, none, none, none, some category, none, none, none⟩),
      ⟨none, none, none, none, some category, none, none, none⟩⟩,
   ⟨ProbeCategory.budget,
      buildProbePrompt category ProbeCategory.budget
        (some ⟨none, none, none, none, some category, none, none, none⟩),
      ⟨none, none, none, none, some category, none, none, none⟩⟩,
   ⟨ProbeCategory.enterprise,
      buildProbePrompt category ProbeCategory.enterprise
        (some ⟨none, none, none, none, some category, none, none, none⟩),
      ⟨none, none, none, none, some category, none, none, none⟩⟩,
   ⟨ProbeCategory.prosCons,
      buildProbePrompt brandName ProbeCategory.prosCons
        (some ⟨none, none, none, none, none, none, some brandName, none⟩),
      ⟨none, none, none, none, none, none, some brandName, none⟩⟩]

-- --- Placeholder-token predicates (for the C9 statements) ---

/-- Whether a complete placeholder token `\{[^}]+\}` begins right after an
opening brace whose tail is `t`. -/
def startsTok (t : List Char) : Bool :=
  let nm := t.takeWhile (fun x => x ≠ '\x7d')
  !nm.isEmpty && !(t.drop nm.length).isEmpty

/-- Whether the character list contains a complete placeholder token
(a match of `\{[^}]+\}`). -/
def hasTok : List Char → Bool
  | [] => false
  | c :: t => (c = '\x7b' && startsTok t) || hasTok t

/-- Whether the string contains a literal `{placeholder}` token. -/
def containsPlaceholderToken (s : String) : Bool := hasTok s.data

/-- No brace and no dollar characters (hypothesis of the amended C9). -/
def noBraceDollar (s : String) : Bool :=
  s.data.all (fun c => c ≠ '\x7b' && c ≠ '\x7d' && c ≠ '$')

-- --- Specification-side definitions (claim wordings, for refutations and
-- amended statements) ---

/-- Number of (possibly overlapping) occurrences of `p` in a list: one per
start index at which `p` appears. -/
def countOccur (p : List Char) : List Char → Nat
  | [] => if p.isPrefixOf ([] : List Char) then 1 else 0
  | c :: t => (if p.isPrefixOf (c :: t) then 1 else 0) + countOccur p t

/-- The reading that claim C4 gives of `detectSentiment`: count every occurrence of every
keyword of each set inside the ±120-character lowercased window and compare
the totals. -/
def specSentimentOccurrences (t : List Char) (i l : Nat) : Sentiment :=
  let w := extractSurroundingText t i l 120
  let pos := (POSITIVE_KEYWORDS.map (fun k => countOccur k.data w)).sum
  let neg := (NEGATIVE_KEYWORDS.map (fun k => countOccur k.data w)).sum
  if pos > neg then Sentiment.positive
  else if neg > pos then Sentiment.negative
  else Sentiment.neutral

/-- Number of keywords of a set that occur at least once in the window (the
quantity the presence-counting loop of the detector actually computes). -/
def keywordsPresent (ks : List String) (w : List Char) : Nat :=
  ks.countP (fun k => containsSub w k.data)

/-- The reading that claim C5 gives of `detectPosition`: split the response into lines at
newline characters and, line by line, match the leading numbered-list
pattern with `\s*` (not `[ \t]*`) indentation; return the marker of the
first matching line whose remainder contains the brand name or domain. -/
def specLineByLinePosition (response name domain : List Char) : Option Nat :=
  ((response.splitOn '\n').filterMap (fun line =>
    match tryMarker (line.dropWhile isJsSpace) with
    | some (marker, content, _) =>
      if brandPatternTest content name domain then some marker else none
    | none => none)).head?

-- --- Basic lemmas about the string primitives ---

theorem findSub_isSome_iff (p : List Char) :
    ∀ s : List Char, (findSub p s).isSome = true ↔ p <:+: s := by
  intro s
  induction s with
  | nil =>
    simp only [findSub]
    constructor
    · intro h
      by_cases hp : p.isPrefixOf ([] : List Char)
      · have hp2 := List.isPrefixOf_iff_prefix.mp hp
        exact hp2.isInfix
      · simp [hp] at h
    · intro h
      have : p = [] := by
        rcases h with ⟨a, b, hab⟩
        have := congrArg List.length hab
        simp at this
        simp [this.1, this.2.1]
      simp [this, List.isPrefixOf]
  | cons c t ih =>
    simp only [findSub]
    by_cases hp : p.isPrefixOf (c :: t)
    · simp only [hp, if_true]
      simp only [Option.isSome_some, true_iff]
      have hp2 := List.isPrefixOf_iff_prefix.mp hp
      exact hp2.isInfix
    · simp only [hp, Bool.false_eq_true, if_false, Option.isSome_map']
      rw [ih, List.infix_cons_iff]
      constructor
      · exact Or.inr
      · rintro (h | h)
        · have hp2 := List.isPrefixOf_iff_prefix.mpr h
          exact absurd hp2 hp
        · exact h

theorem containsSub_iff (s p : List Char) : containsSub s p = true ↔ p <:+: s :=
  findSub_isSome_iff p s

theorem lowerL_mono {p s : List Char} (h : p <:+: s) : lowerL p <:+: lowerL s :=
  List.IsInfix.map _ h

theorem drop_length_takeWhile (P : Char → Bool) :
    ∀ l : List Char, l.drop (l.takeWhile P).length = l.dropWhile P := by
  intro l
  induction l with
  | nil => rfl
  | cons c t ih =>
    by_cases h : P c <;>
      simp [List.takeWhile_cons, List.dropWhile_cons, h, ih]

/-- A successful URL match decomposes the scanned suffix. -/
theorem tryUrl_append {s url rest : List Char} (h : tryUrl s = some (url, rest)) :
    s = url ++ rest := by
  unfold tryUrl at h
  by_cases h4 : matchCI "http".data s
  · simp only [h4, if_true] at h
    by_cases hs : matchCI "s://".data (s.drop 4)
    · simp only [hs, if_true] at h
      by_cases hb : ((s.drop 8).takeWhile isUrlBody).isEmpty
      · simp [hb] at h
      · simp only [hb, Bool.false_eq_true, if_false, Option.some.injEq,
          Prod.mk.injEq] at h
        rw [← h.1, ← h.2, List.append_assoc, drop_length_takeWhile,
          List.takeWhile_append_dropWhile, List.take_append_drop]
    · simp only [hs, if_false] at h
      by_cases h3 : matchCI "://".data (s.drop 4)
      · simp only [h3, if_true] at h
        by_cases hb : ((s.drop 7).takeWhile isUrlBody).isEmpty
        · simp [hb] at h
        · simp only [hb, Bool.false_eq_true, if_false, Option.some.injEq,
            Prod.mk.injEq] at h
          rw [← h.1, ← h.2, List.append_assoc, drop_length_takeWhile,
            List.takeWhile_append_dropWhile, List.take_append_drop]
      · simp [h3] at h
  · simp [h4] at h

/-- Every URL token the scanner returns is an infix of the scanned text. -/
theorem extractUrlsF_sound :
    ∀ (fuel : Nat) (s u : List Char), u ∈ extractUrlsF fuel s → u <:+: s := by
  intro fuel
  induction fuel with
  | zero => intro s u h; simp [extractUrlsF] at h
  | succ f ih =>
    intro s u h
    match s with
    | [] => simp [extractUrlsF] at h
    | c :: t =>
      rw [extractUrlsF] at h
      rcases htry : tryUrl (c :: t) with _ | ⟨url, rest⟩
      · rw [htry] at h
        have hstep : t <:+: c :: t := List.infix_cons_iff.mpr (Or.inr (List.infix_refl t))
        exact (ih t u h).trans hstep
      · rw [htry] at h
        have hdec := tryUrl_append htry
        rcases List.mem_cons.mp h with rfl | hmem
        · exact ⟨[], rest, hdec.symm⟩
        · have : u <:+: rest := ih rest u hmem
          exact this.trans ⟨url, [], by simp [hdec]⟩

theorem extractUrls_sound {s u : List Char} (h : u ∈ extractUrls s) : u <:+: s :=
  extractUrlsF_sound s.length s u h

/-- When the URL layer fires, the lowercased brand domain also occurs in the
lowercased response (the matched URL is itself a substring of the
response), so `indexOf` cannot miss. -/
theorem urlHit_findSub {resp dom : List Char}
    (h : (extractUrls resp).any (fun u => containsSub (lowerL u) dom) = true) :
    (findSub dom (lowerL resp)).isSome = true := by
  rcases List.any_eq_true.mp h with ⟨u, hu, hcontains⟩
  have h1 : dom <:+: lowerL u := (containsSub_iff _ _).mp hcontains
  have h2 : lowerL u <:+: lowerL resp := lowerL_mono (extractUrls_sound hu)
  exact (findSub_isSome_iff _ _).mpr (h1.trans h2)


/-- The presence-counting loop equals a `countP` over the keyword list. -/
theorem countKeywords_eq (ks : List String) (w : List Char) :
    countKeywords ks w = keywordsPresent ks w := by
  have general :
      ∀ (l : List String) (n : Nat),
        l.foldl (fun acc k => if containsSub w k.data then acc + 1 else acc) n =
          n + l.countP (fun k => containsSub w k.data) := by
    intro l
    induction l with
    | nil => intro n; simp
    | cons k t ih =>
      intro n
      by_cases h : containsSub w k.data = true
      · simp only [List.foldl_cons, List.countP_cons, h, if_pos, if_true, ih]
        omega
      · simp [List.foldl_cons, List.countP_cons, h, ih]
  simpa [countKeywords, keywordsPresent] using general ks 0

/-- The competitor loop equals filtering then projecting the names. -/
theorem detectCompetitors_eq (response : List Char) (competitors : List Competitor) :
    detectCompetitors response competitors =
      (competitors.filter (fun c =>
        containsSub (lowerL response) (lowerL c.name.data) ||
        containsSub (lowerL response) (lowerL c.domain.data))).map Competitor.name := by
  have general :
      ∀ (l : List Competitor) (acc : List String),
        l.foldl (fun acc c =>
            if containsSub (lowerL response) (lowerL c.name.data) ||
               containsSub (lowerL response) (lowerL c.domain.data) then acc ++ [c.name]
            else acc) acc =
          acc ++ (l.filter (fun c =>
            containsSub (lowerL response) (lowerL c.name.data) ||
            containsSub (lowerL response) (lowerL c.domain.data))).map Competitor.name := by
    intro l
    induction l with
    | nil => intro acc; simp
    | cons c t ih =>
      intro acc
      rw [List.foldl_cons, List.filter_cons]
      by_cases h : (containsSub (lowerL response) (lowerL c.name.data) ||
          containsSub (lowerL response) (lowerL c.domain.data)) = true
      · rw [if_pos h, if_pos h, ih, List.map_cons, List.append_assoc]
        rfl
      · rw [if_neg h, if_neg h, ih]
  simpa [detectCompetitors] using general competitors []

/-- The early-returning position scan agrees with collecting all
numbered-list matches and taking the first one the brand pattern accepts. -/
theorem dpScanF_eq_find (name domain : List Char) :
    ∀ (fuel : Nat) (s : List Char) (ls : Bool),
      dpScanF name domain fuel s ls =
        ((numberedMatchesF fuel s ls).find?
          (fun m => brandPatternTest m.2 name domain)).map Prod.fst := by
  intro fuel
  induction fuel with
  | zero => intro s ls; simp [dpScanF, numberedMatchesF]
  | succ f ih =>
    intro s ls
    match s with
    | [] => simp [dpScanF, numberedMatchesF]
    | c :: t =>
      rw [dpScanF, numberedMatchesF]
      by_cases hls : ls
      · simp only [hls, if_true]
        rcases htry : tryNumbered (c :: t) with _ | ⟨marker, content, rest⟩
        · exact ih t (isLineTerm c)
        · simp only [List.find?_cons]
          by_cases hq : brandPatternTest content name domain = true
          · simp [hq]
          · simp only [hq, Bool.false_eq_true, if_false]
            simp only [hq] at *
            simpa using ih rest false
      · simp only [hls, if_false]
        exact ih t (isLineTerm c)


-- --- Claim theorems ---

/-- Claim C1 (confirmed): if the response contains a URL token whose
lowercased text contains the lowercased brand domain, and also a
case-insensitive word-boundary match of the brand name, then
`detectCitation` reports `citationType = url-link` with confidence `1.0`:
the URL layer is evaluated first and wins regardless of where either
occurrence appears in the text. -/
theorem C1_url_layer_wins (r b d : String) (comps : List Competitor)
    (h1 : ∃ u ∈ extractUrls r.data, containsSub (lowerL u) (lowerL d.data) = true)
    (_h2 : (wbFind b.data r.data).isSome = true) :
    (detectCitation r b d comps).citationType = some CitationType.urlLink ∧
    (detectCitation r b d comps).confidence = 1 ∧
    (detectCitation r b d comps).cited = true := by
  have hany : (extractUrls r.data).any
      (fun u => containsSub (lowerL u) (lowerL d.data)) = true := by
    obtain ⟨u, hu, hc⟩ := h1
    exact List.any_eq_true.mpr ⟨u, hu, hc⟩
  unfold detectCitation
  dsimp only
  rw [if_pos hany]
  exact ⟨rfl, rfl, rfl⟩

/-- Witness for C1 at a concrete response containing both a matching URL
and an exact word-boundary name match. -/
theorem C1_witness :
    (∃ u ∈ extractUrls "Visit https://acme.com now, Acme is great".data,
        containsSub (lowerL u) (lowerL "acme.com".data) = true) ∧
    (wbFind "Acme".data "Visit https://acme.com now, Acme is great".data).isSome = true ∧
    (detectCitation "Visit https://acme.com now, Acme is great" "Acme" "acme.com"
        []).citationType = some CitationType.urlLink ∧
    (detectCitation "Visit https://acme.com now, Acme is great" "Acme" "acme.com"
        []).confidence = 1 := by
  refine ⟨by decide, by decide, ?_, ?_⟩
  · exact (C1_url_layer_wins "Visit https://acme.com now, Acme is great" "Acme"
      "acme.com" [] (by decide) (by decide)).1
  · exact (C1_url_layer_wins "Visit https://acme.com now, Acme is great" "Acme"
      "acme.com" [] (by decide) (by decide)).2.1

/-- Claim C2 (amended): `detectCitation` is a total function (it never
throws), and an empty response yields the no-match verdict provided both
the brand name and the brand domain are nonempty.  The empty-`brandDomain` case of the original claim is refuted by `C2_counterexample`: `indexOf` of
an empty string is `0`, so the domain-only layer fires. -/
theorem C2_amended_empty_response (b d : String) (comps : List Competitor)
    (hb : b ≠ "") (hd : d ≠ "") :
    detectCitation "" b d comps =
      { cited := false, citationType := none, sentiment := none, position := none,
        competitorsMentioned := detectCompetitors [] comps, confidence := 0 } := by
  have hbd : b.data ≠ [] := by
    intro h0
    apply hb
    cases b with
    | mk l => exact congrArg String.mk h0
  have hdd : d.data ≠ [] := by
    intro h0
    apply hd
    cases d with
    | mk l => exact congrArg String.mk h0
  unfold detectCitation
  cases hb2 : b.data with
  | nil => exact absurd hb2 hbd
  | cons bc bt =>
    cases hd2 : d.data with
    | nil => exact absurd hd2 hdd
    | cons dc dt => rfl

/-- Witness for the amended C2 at concrete nonempty identifiers. -/
theorem C2_witness :
    ("Acme" : String) ≠ "" ∧ ("acme.com" : String) ≠ "" ∧
    detectCitation "" "Acme" "acme.com" [] =
      { cited := false, citationType := none, sentiment := none, position := none,
        competitorsMentioned := detectCompetitors [] [], confidence := 0 } :=
  ⟨by decide, by decide,
    C2_amended_empty_response "Acme" "acme.com" [] (by decide) (by decide)⟩

/-- Counterexample to C2 as stated: with an empty brand domain the
domain-only layer fires even on an empty response, because
`"".indexOf("") = 0`; the verdict is `cited = true` with confidence `0.5`,
not the claimed no-match verdict. -/
theorem C2_counterexample :
    (detectCitation "" "Acme" "" []).cited = true ∧
    (detectCitation "" "Acme" "" []).confidence = 1 / 2 := by
  exact ⟨rfl, rfl⟩

/-- Claim C3 (confirmed): the confidence lies in `[0, 1]`; when cited it is
exactly one of `1`, `0.9`, `0.7`, `0.5` (set by the layer that fired, in
decreasing order across layers), and when not cited it is `0`. -/
theorem C3_confidence_values (r b d : String) (comps : List Competitor) :
    0 ≤ (detectCitation r b d comps).confidence ∧
    (detectCitation r b d comps).confidence ≤ 1 ∧
    (((detectCitation r b d comps).cited = true ∧
        ((detectCitation r b d comps).confidence = 1 ∨
         (detectCitation r b d comps).confidence = 9 / 10 ∨
         (detectCitation r b d comps).confidence = 7 / 10 ∨
         (detectCitation r b d comps).confidence = 1 / 2)) ∨
     ((detectCitation r b d comps).cited = false ∧
        (detectCitation r b d comps).confidence = 0)) := by
  unfold detectCitation
  dsimp only
  split
  · exact ⟨by norm_num, by norm_num, Or.inl ⟨rfl, Or.inl rfl⟩⟩
  · split
    · exact ⟨by norm_num, by norm_num, Or.inl ⟨rfl, Or.inr (Or.inl rfl)⟩⟩
    · split
      · exact ⟨by norm_num, by norm_num, Or.inl ⟨rfl, Or.inr (Or.inr (Or.inl rfl))⟩⟩
      · split
        · exact ⟨by norm_num, by norm_num, Or.inl ⟨rfl, Or.inr (Or.inr (Or.inr rfl))⟩⟩
        · exact ⟨le_refl 0, by norm_num, Or.inr ⟨rfl, rfl⟩⟩

/-- Claim C4 (amended): `detectSentiment` compares, over the ±120-character
lowercased window, the number of positive keywords present with the number
of negative keywords present — each keyword counted at most once however
often it occurs (substring matching, no word boundaries); `positive`
exactly when the positive presence count exceeds the negative one,
`negative` exactly for the converse, `neutral` exactly on ties.  The
original per-occurrence reading is refuted by `C4_counterexample`. -/
theorem C4_sentiment_presence_counts (t : List Char) (i l : Nat) :
    (detectSentiment t i l = Sentiment.positive ↔
      keywordsPresent NEGATIVE_KEYWORDS (extractSurroundingText t i l 120) <
        keywordsPresent POSITIVE_KEYWORDS (extractSurroundingText t i l 120)) ∧
    (detectSentiment t i l = Sentiment.negative ↔
      keywordsPresent POSITIVE_KEYWORDS (extractSurroundingText t i l 120) <
        keywordsPresent NEGATIVE_KEYWORDS (extractSurroundingText t i l 120)) ∧
    (detectSentiment t i l = Sentiment.neutral ↔
      keywordsPresent POSITIVE_KEYWORDS (extractSurroundingText t i l 120) =
        keywordsPresent NEGATIVE_KEYWORDS (extractSurroundingText t i l 120)) := by
  unfold detectSentiment
  simp only [countKeywords_eq]
  split_ifs with h1 h2
  · refine ⟨by simp [h1], by simp; omega, by simp; omega⟩
  · refine ⟨by simp; omega, by simp [h2], by simp; omega⟩
  · refine ⟨by simp; omega, by simp; omega, by simp; omega⟩

/-- Counterexample to C4 as stated: in the window
`"acme best best best avoid issues"` the occurrence totals are 3 positive
versus 2 negative (so the per-occurrence reading demands `positive`), but
the code counts each keyword once, giving presence counts 1 versus 2 and
the verdict `negative`. -/
theorem C4_counterexample :
    specSentimentOccurrences "Acme best best best avoid issues".data 0 4 =
      Sentiment.positive ∧
    detectSentiment "Acme best best best avoid issues".data 0 4 =
      Sentiment.negative := by
  exact ⟨by decide, by decide⟩

/-- Claim C5 (amended): `detectPosition` scans the response for matches of
the multiline pattern `^[ \t]*(\d{1,2})[.):\-]\s+(.+)` — leading
whitespace restricted to spaces and tabs (not `\s*`), and the `\s+` after
the marker able to span line breaks — and returns the marker of the first
match whose captured remainder contains the brand name or domain
(case-insensitively, unanchored), otherwise none.  The examples given in the claim hold: `"1. Acme\n2. Beta\n3. Gamma"` with brand `"Acme"` gives position 1,
and a response with no numbered lines gives none.  The `^\s*` line-by-line
reading is refuted by `C5_counterexample`. -/
theorem C5_amended_position :
    (∀ (r name domain : List Char),
      detectPosition r name domain =
        ((numberedMatches r).find?
          (fun m => brandPatternTest m.2 name domain)).map Prod.fst) ∧
    (∀ domain : List Char,
      detectPosition "1. Acme\n2. Beta\n3. Gamma".data "Acme".data domain = some 1) ∧
    (∀ name domain : List Char,
      detectPosition "Acme is great".data name domain = none) := by
  refine ⟨fun r name domain => dpScanF_eq_find name domain r.length r true,
    fun domain => rfl, fun name domain => rfl⟩

/-- Counterexample to C5 as stated: on the response `"\f1. Acme"` the
claimed pattern `^\s*(\d{1,2})[.):\-]\s+(.+)` matches the single line
(its `\s*` absorbs the form feed) and yields position 1, but the source pattern `^[ \t]*` does not skip the form feed, so `detectPosition` returns none. -/
theorem C5_counterexample :
    specLineByLinePosition "\x0c1. Acme".data "Acme".data "acme.com".data = some 1 ∧
    detectPosition "\x0c1. Acme".data "Acme".data "acme.com".data = none := by
  exact ⟨by decide, by decide⟩

/-- Claim C6 (confirmed): for response `"Google is popular"` and brand name
`"Go"` (with a brand domain that does not occur in the response), the
word-boundary exact-name layer fails, the partial substring layer fires,
and the verdict is cited with confidence `0.7`. -/
theorem C6_partial_layer (domain : String) (comps : List Competitor)
    (_h : containsSub (lowerL "Google is popular".data) (lowerL domain.data) = false) :
    wbFind "Go".data "Google is popular".data = none ∧
    containsSub (lowerL "Google is popular".data) (lowerL "Go".data) = true ∧
    (detectCitation "Google is popular" "Go" domain comps).cited = true ∧
    (detectCitation "Google is popular" "Go" domain comps).confidence = 7 / 10 ∧
    (detectCitation "Google is popular" "Go" domain comps).citationType =
      some CitationType.directMention := by
  refine ⟨by decide, by decide, ?_, ?_, ?_⟩ <;> rfl

/-- Witness for C6 at a concrete absent domain. -/
theorem C6_witness :
    containsSub (lowerL "Google is popular".data) (lowerL "example.com".data) = false ∧
    (detectCitation "Google is popular" "Go" "example.com" []).confidence = 7 / 10 :=
  ⟨by decide, (C6_partial_layer "example.com" [] (by decide)).2.2.2.1⟩

/-- Claim C7 (confirmed): `competitorsMentioned` is exactly the display
names of the competitors whose name or domain occurs case-insensitively in
the response, in input order, regardless of which detection layer fired. -/
theorem C7_competitors_mentioned (r b d : String) (comps : List Competitor) :
    (detectCitation r b d comps).competitorsMentioned =
      (comps.filter (fun c =>
        containsSub (lowerL r.data) (lowerL c.name.data) ||
        containsSub (lowerL r.data) (lowerL c.domain.data))).map Competitor.name := by
  rw [← detectCompetitors_eq]
  unfold detectCitation
  dsimp only
  split
  · rfl
  · split
    · rfl
    · split
      · rfl
      · split
        · rfl
        · rfl

/-- Claim C8 (confirmed): `generateValidationProbes` emits the fixed
catalogue in the fixed order — best-of, top-list, a difference probe then a
when-to-use probe for each of the first three competitors, one company-solve
probe, four use-case probes, then beginner, budget, enterprise and the
pros-and-cons probe — with competitors beyond the first three ignored, so
the length is `11 + 2 * min 3 (number of competitors)`. -/
theorem C8_probe_catalogue (b c : String) (comps : List String) :
    (generateValidationProbes b c comps).map Probe.category =
      [ProbeCategory.bestOf, ProbeCategory.topList] ++
        (comps.take 3).flatMap
          (fun _ => [ProbeCategory.difference, ProbeCategory.whenToUse]) ++
        [ProbeCategory.companySolve, ProbeCategory.useCase, ProbeCategory.useCase,
         ProbeCategory.useCase, ProbeCategory.useCase, ProbeCategory.beginner,
         ProbeCategory.budget, ProbeCategory.enterprise, ProbeCategory.prosCons] ∧
    (generateValidationProbes b c comps).length = 11 + 2 * min 3 comps.length := by
  match comps with
  | [] => exact ⟨rfl, rfl⟩
  | [a1] => exact ⟨rfl, rfl⟩
  | [a1, a2] => exact ⟨rfl, rfl⟩
  | a1 :: a2 :: a3 :: rest =>
    refine ⟨rfl, ?_⟩
    show 17 = 11 + 2 * min 3 (rest.length + 3)
    have hmin : min 3 (rest.length + 3) = 3 := by omega
    rw [hmin]

/-- Claim C10 (confirmed): `cited` is equivalent to a non-null
`citationType` and to a positive confidence; whenever cited the sentiment
is non-null (in the URL layer the matched URL is a substring of the
response, so the plain-text domain search cannot miss); and the no-match
verdict has all classification fields null with confidence `0`. -/
theorem C10_result_invariants (r b d : String) (comps : List Competitor) :
    ((detectCitation r b d comps).cited = true ↔
      ((detectCitation r b d comps).citationType).isSome = true) ∧
    ((detectCitation r b d comps).cited = true ↔
      0 < (detectCitation r b d comps).confidence) ∧
    (((detectCitation r b d comps).cited = true ∧
        ((detectCitation r b d comps).sentiment).isSome = true) ∨
     ((detectCitation r b d comps).cited = false ∧
        (detectCitation r b d comps).citationType = none ∧
        (detectCitation r b d comps).sentiment = none ∧
        (detectCitation r b d comps).position = none ∧
        (detectCitation r b d comps).confidence = 0)) := by
  unfold detectCitation
  dsimp only
  split
  · rename_i hurl
    refine ⟨by simp, by norm_num, Or.inl ⟨rfl, ?_⟩⟩
    rcases hfs : findSub (lowerL d.data) (lowerL r.data) with _ | i
    · exfalso
      have hsome := urlHit_findSub hurl
      rw [hfs] at hsome
      simp at hsome
    · simp only [hfs]
      rfl
  · split
    · exact ⟨by simp, by norm_num, Or.inl ⟨rfl, rfl⟩⟩
    · split
      · exact ⟨by simp, by norm_num, Or.inl ⟨rfl, rfl⟩⟩
      · split
        · exact ⟨by simp, by norm_num, Or.inl ⟨rfl, rfl⟩⟩
        · exact ⟨by simp, by norm_num, Or.inr ⟨rfl, rfl, rfl, rfl, rfl⟩⟩


-- --- Token-freeness of the catch-all pass (for the amended C9) ---

theorem expandDollar_no_dollar :
    ∀ (repl m b a : List Char), (∀ c ∈ repl, c ≠ '$') →
      expandDollar repl m b a = repl := by
  intro repl
  induction repl with
  | nil => intro m b a _; rfl
  | cons c r ih =>
    intro m b a h
    have hc : c ≠ '$' := h c (List.mem_cons_self c r)
    cases r with
    | nil => simp [expandDollar]
    | cons d r2 =>
      simp only [expandDollar, hc, if_false, List.cons.injEq, true_and]
      exact ih m b a (fun x hx => h x (List.mem_cons_of_mem c hx))

/-- On a string with no closing brace the catch-all pass finds no match and
copies every character unchanged. -/
theorem rtF_closeFree_id (q : List Char) :
    ∀ (fuel : Nat) (t pre : List Char), t.length ≤ fuel →
      (∀ c ∈ t, c ≠ '\x7d') → rtF q fuel pre t = t := by
  intro fuel
  induction fuel with
  | zero =>
    intro t pre hlen _
    have ht : t = [] := List.length_eq_zero.mp (Nat.le_zero.mp hlen)
    subst ht
    rfl
  | succ f ih =>
    intro t pre hlen hcf
    rcases t with _ | ⟨c, t2⟩
    · rfl
    · have hlent : t2.length ≤ f := by simpa using Nat.le_of_succ_le_succ hlen
      have hclose : ∀ x ∈ t2, x ≠ '\x7d' :=
        fun x hx => hcf x (List.mem_cons_of_mem c hx)
      by_cases hc : c = '\x7b'
      · subst hc
        have hdw : t2.dropWhile (fun x => x ≠ '\x7d') = [] :=
          List.dropWhile_eq_nil_iff.mpr (fun x hx => by simp [hclose x hx])
        have hdrop : t2.drop (t2.takeWhile (fun x => x ≠ '\x7d')).length = [] := by
          rw [drop_length_takeWhile]
          exact hdw
        simp only [rtF, if_pos rfl, hdrop, if_true]
        rw [ih t2 _ hlent hclose]
      · simp only [rtF, hc, if_false]
        rw [ih t2 _ hlent hclose]

theorem startsTok_closeFree (t : List Char) (h : ∀ c ∈ t, c ≠ '\x7d') :
    startsTok t = false := by
  have hdw : t.dropWhile (fun x => x ≠ '\x7d') = [] :=
    List.dropWhile_eq_nil_iff.mpr (fun x hx => by simp [h x hx])
  simp only [startsTok, drop_length_takeWhile, hdw]
  simp

theorem hasTok_closeFree :
    ∀ l : List Char, (∀ c ∈ l, c ≠ '\x7d') → hasTok l = false := by
  intro l
  induction l with
  | nil => intro _; rfl
  | cons c t ih =>
    intro h
    rw [hasTok]
    have h1 := startsTok_closeFree t (fun x hx => h x (List.mem_cons_of_mem c hx))
    simp [h1, ih (fun x hx => h x (List.mem_cons_of_mem c hx))]

/-- A placeholder token is contiguous and opens with a brace, so prepending
text free of opening braces cannot create one. -/
theorem hasTok_append_left :
    ∀ (a b : List Char), (∀ c ∈ a, c ≠ '\x7b') →
      hasTok (a ++ b) = hasTok b := by
  intro a
  induction a with
  | nil => intro b _; rfl
  | cons c t ih =>
    intro b h
    rw [List.cons_append, hasTok]
    have hc : c ≠ '\x7b' := h c (List.mem_cons_self c t)
    simp [hc, ih b (fun x hx => h x (List.mem_cons_of_mem c hx))]

/-- Core of the amended C9: the catch-all pass
`result.replace(/\{[^}]+\}/g, query)` leaves no complete placeholder token
in ANY input string, provided only that the query is brace- and
dollar-free.  Every opening brace of the input either heads a complete
token (replaced by the clean query), is followed immediately by a closing
brace (empty gap, no token), or has no closing brace after it at all; in
each case no token survives, whatever braces or dollars the earlier
variable substitutions may have introduced. -/
theorem rtF_no_token (q : List Char)
    (hq : ∀ c ∈ q, c ≠ '\x7b' ∧ c ≠ '\x7d' ∧ c ≠ '$') :
    ∀ (fuel : Nat) (s pre : List Char), s.length ≤ fuel →
      hasTok (rtF q fuel pre s) = false := by
  intro fuel
  induction fuel using Nat.strong_induction_on with
  | _ fuel ih =>
    intro s pre hlen
    rcases fuel with _ | fuel
    · have hs : s = [] := List.length_eq_zero.mp (Nat.le_zero.mp hlen)
      subst hs
      rfl
    · rcases s with _ | ⟨c, t⟩
      · rfl
      · have hlent : t.length ≤ fuel := by simpa using Nat.le_of_succ_le_succ hlen
        by_cases hc : c = '\x7b'
        · subst hc
          have hdrop : t.drop (t.takeWhile (fun x => x ≠ '\x7d')).length =
              t.dropWhile (fun x => x ≠ '\x7d') := drop_length_takeWhile _ t
          rcases hdw : t.dropWhile (fun x => x ≠ '\x7d') with _ | ⟨brk, r3⟩
          · have hclose : ∀ x ∈ t, x ≠ '\x7d' := by
              intro x hx
              have h2 := List.dropWhile_eq_nil_iff.mp hdw x hx
              simpa using h2
            rw [hdw] at hdrop
            simp only [rtF, if_pos rfl, hdrop, if_true]
            rw [rtF_closeFree_id q fuel t _ hlent hclose]
            apply hasTok_closeFree
            intro x hx
            rcases List.mem_cons.mp hx with rfl | hx2
            · decide
            · exact hclose x hx2
          · have hbrk : brk = '\x7d' := by
              have h2 := List.head?_dropWhile_not (fun x => x ≠ '\x7d') t
              rw [hdw] at h2
              simpa using h2
            subst hbrk
            have ht : t.takeWhile (fun x => x ≠ '\x7d') ++ '\x7d' :: r3 = t := by
              have h3 : t.takeWhile (fun x => x ≠ '\x7d') ++
                  t.dropWhile (fun x => x ≠ '\x7d') = t :=
                List.takeWhile_append_dropWhile _ t
              rw [hdw] at h3
              exact h3
            rw [hdw] at hdrop
            by_cases hnm : (t.takeWhile (fun x => x ≠ '\x7d')).isEmpty
            · have hnm2 : t.takeWhile (fun x => x ≠ '\x7d') = [] := by
                simpa [List.isEmpty_iff] using hnm
              have ht2 : t = '\x7d' :: r3 := by
                rw [← ht, hnm2]
                rfl
              simp only [rtF, if_pos rfl, hdrop, hnm, if_true]
              rcases fuel with _ | f2
              · rw [ht2] at hlent
                simp at hlent
              · rw [ht2]
                have hstep : rtF q (f2 + 1) ('\x7b' :: pre) ('\x7d' :: r3) =
                    '\x7d' :: rtF q f2 ('\x7d' :: '\x7b' :: pre) r3 := by
                  simp [rtF]
                rw [hstep]
                have hr3 : r3.length ≤ f2 := by
                  rw [ht2] at hlent
                  simpa using Nat.le_of_succ_le_succ hlent
                have hZ := ih f2 (by omega) r3 ('\x7d' :: '\x7b' :: pre) hr3
                simp [hasTok, startsTok, hZ]
            · have hnm2 : (t.takeWhile (fun x => x ≠ '\x7d')).isEmpty = false := by
                simpa using hnm
              simp only [rtF, if_pos rfl, hdrop, hnm2, Bool.false_eq_true, if_false,
                if_true]
              rw [expandDollar_no_dollar q _ _ _ (fun x hx => (hq x hx).2.2)]
              rw [hasTok_append_left q _ (fun x hx => (hq x hx).1)]
              have hlen3 : t.length =
                  (t.takeWhile (fun x => x ≠ '\x7d')).length + r3.length + 1 := by
                have h4 := congrArg List.length ht
                simp only [List.length_append, List.length_cons] at h4
                omega
              exact ih fuel (Nat.lt_succ_self fuel) r3 _ (by omega)
        · simp only [rtF, hc, if_false]
          rw [hasTok]
          have hX := ih fuel (Nat.lt_succ_self fuel) t (c :: pre) hlent
          simp [hc, hX]

/-- Claim C9 (amended): for every known category, query string, and
non-empty variables map, `buildProbePrompt` replaces every named
placeholder that has a non-empty value and then every placeholder still
unfilled with the query; provided the query itself contains no brace and no
dollar characters, the returned prompt contains no literal `{placeholder}`
token — whatever the variable values contain, since the final catch-all
pass replaces every complete token with the clean query.  The restriction
on the query is forced by `C9_counterexample`, where the query carries a
placeholder token into the output. -/
theorem C9_amended_no_token_leak (query : String) (cat : ProbeCategory)
    (v : ProbeTemplateVariables)
    (hne : varsIsEmpty v = false)
    (hq : noBraceDollar query = true) :
    containsPlaceholderToken (buildProbePrompt query cat (some v)) = false := by
  have hchars : ∀ c ∈ query.data, c ≠ '\x7b' ∧ c ≠ '\x7d' ∧ c ≠ '$' := by
    have h1 : ∀ x ∈ query.data, (¬x = '\x7b' ∧ ¬x = '\x7d') ∧ ¬x = '$' := by
      simpa [noBraceDollar, List.all_eq_true, decide_eq_true_eq] using hq
    exact fun c hc => ⟨(h1 c hc).1.1, (h1 c hc).1.2, (h1 c hc).2⟩
  unfold buildProbePrompt containsPlaceholderToken
  simp only [hne, Bool.false_eq_true, if_false]
  rw [replaceTokens]
  exact rtF_no_token query.data hchars _ _ [] (le_refl _)

/-- Witness for the amended C9, with a variable value that itself contains
braces and a dollar pattern: the guarantee still holds because the final
pass replaces the tokens the value introduces with the clean query. -/
theorem C9_witness :
    varsIsEmpty ⟨none, none, none, none, none, some "a{b}c$&", none, none⟩ = false ∧
    noBraceDollar "CRM tools" = true ∧
    containsPlaceholderToken (buildProbePrompt "CRM tools" ProbeCategory.useCase
      (some ⟨none, none, none, none, none, some "a{b}c$&", none, none⟩)) = false := by
  refine ⟨by decide, by decide, ?_⟩
  exact C9_amended_no_token_leak "CRM tools" ProbeCategory.useCase
    ⟨none, none, none, none, none, some "a{b}c$&", none, none⟩
    (by decide) (by decide)

/-- Counterexample to C9 as stated: with query `"{category}"` (an arbitrary
query string is allowed by the claim) and the non-empty variables map
`{audience: "x"}`, the `{category}` placeholder of the beginner template is
replaced by the query in the final pass, and the query reintroduces the
literal token, so the returned prompt still contains `{category}`. -/
theorem C9_counterexample :
    containsPlaceholderToken (buildProbePrompt "{category}" ProbeCategory.beginner
      (some ⟨none, none, none, none, none, some "x", none, none⟩)) = true := by
  decide

end AeoEngine
